import Mathlib

/-!
Verification of the `linux-healthcheck` specification against a shallow
embedding of `linux_healthcheck/main.py`.

Modelling conventions:
* The SQLite store is embedded as an explicit state (`DB`): the `counters`
  table is a list of `Counter` rows, the `counter_counts` table a list of
  `Sample` rows.  `rowid` assignment (`integer primary key`) is modelled as
  max-existing-id + 1.
* `access_time datetime default current_timestamp` is abstracted to a
  strictly monotone logical clock (`DB.clock`), one tick per insertion; the
  spec leaves the tie-break on equal timestamps unspecified, and the design
  assumes serialized runs, so distinct timestamps are the faithful picture.
* Machine-level details (file permissions, the fixed `~/.…` paths) are not
  modelled; the filesystem of counter files is a partial map `FS`, where
  `none` models a missing or unreadable path.
* Fallible operations return `Except RunError _`; an uncaught Python
  exception is an `Except.error` value that propagates to the caller.
* `ADD_COUNTER_SQL % (path, name)` interpolates raw text into SQL: we model
  the interpolation literally and re-parse the resulting statement with
  the SQLite string-literal lexing (two adjacent quotes denote one quote, a
  lone quote terminates the literal; anything that no longer matches the
  statement template is a syntax error, i.e. a storage error).
-/

deriving instance DecidableEq for Except

namespace LinuxHealthcheck

/-! ### Characters used in the lexical models -/

/-- Single-quote character, written via its code point. -/
def squote : Char := Char.ofNat 39

/-- Double-quote character, written via its code point. -/
def dquote : Char := Char.ofNat 34

/-- Backslash character, written via its code point. -/
def bslash : Char := Char.ofNat 92

/-! ### Data model (schema `SCHEMA_SQL`) -/

/-- Row of the `counters` table: `(counter_id primary key, path, name)`. -/
structure Counter where
  counter_id : Nat
  path : String
  name : String
deriving DecidableEq

/-- Row of the `counter_counts` table:
`(counter_count_id primary key, counters_counter_id, count, access_time)`. -/
structure Sample where
  counter_count_id : Nat
  counters_counter_id : Nat
  count : Int
  access_time : Nat
deriving DecidableEq

/-- The data content of the store file, plus the logical clock that stands in
for `current_timestamp`. -/
structure DB where
  counters : List Counter
  samples : List Sample
  clock : Nat
deriving DecidableEq

/-- The four schema objects created by `SCHEMA_SQL`: the two tables, the
unique index on `counters(path)` and the index on
`counter_counts(access_time)`. -/
inductive SchemaObj where
  | countersTable
  | samplesTable
  | pathUniqueIndex
  | accessTimeIndex
deriving DecidableEq

/-- A store file: its schema objects together with its data. -/
structure Store where
  objs : List SchemaObj
  db : DB
deriving DecidableEq

/-- Error taxonomy of the run (uncaught Python exceptions). -/
inductive RunError where
  | storageError
  | sampleReadError
  | sampleParseError
  | credentialsError
  | deliveryError
deriving DecidableEq

/-! ### Counter store operations -/

/-- Samples of one counter, in insertion order: the rows of `counter_counts`
with the given `counters_counter_id`. -/
def samplesFor (db : DB) (cid : Nat) : List Sample :=
  db.samples.filter (fun s => s.counters_counter_id == cid)

/-- Aggregation step for `max(access_time)` with a bare `count` column: keep
the row with the later timestamp. -/
def maxAux (s : Sample) : Option Sample → Sample
  | none => s
  | some m => if s.access_time < m.access_time then m else s

/-- Row selected by `select max(access_time), count …`: among the rows the
one with maximal `access_time` (`none` on an empty table, which SQLite
reports as a NULL row). -/
def maxSample : List Sample → Option Sample
  | [] => none
  | s :: ss => some (maxAux s (maxSample ss))

/-- Embedding of `get_counter` (`latest_value`): the `count` at the maximal
`access_time` for the counter, or `0` when the counter has no sample yet. -/
def get_counter (db : DB) (cid : Nat) : Int :=
  match maxSample (samplesFor db cid) with
  | none => 0
  | some s => s.count

/-- Next `rowid` for the `counters` table: one more than the largest
existing `counter_id` (1 on an empty table). -/
def nextCounterId (db : DB) : Nat :=
  (db.counters.map (fun c => c.counter_id)).foldr max 0 + 1

/-- Next `rowid` for the `counter_counts` table. -/
def nextSampleId (db : DB) : Nat :=
  (db.samples.map (fun s => s.counter_count_id)).foldr max 0 + 1

/-- Embedding of `update_counter` (`record_sample`): append one row to
`counter_counts` with the current timestamp; the logical clock advances. -/
def update_counter (db : DB) (cid : Nat) (count : Int) : DB :=
  { db with
    samples := db.samples ++
      [{ counter_count_id := nextSampleId db
         counters_counter_id := cid
         count := count
         access_time := db.clock }]
    clock := db.clock + 1 }

/-! ### `ADD_COUNTER_SQL` string interpolation and SQLite literal lexing -/

/-- Single-quote character as a one-character string. -/
def sq : String := String.mk [squote]

/-- Statement text produced by `ADD_COUNTER_SQL % (path, name)`: the raw
strings are pasted between single quotes. -/
def addCounterSQL (path name : String) : String :=
  "\ninsert or ignore into counters (path, name)\nvalues (" ++ sq ++ path ++
    sq ++ ", " ++ sq ++ name ++ sq ++ ");\n"

/-- SQLite string-literal lexer, positioned just after an opening quote:
a doubled quote stands for one quote, a lone quote closes the literal, and
a missing closing quote fails the statement.  Returns the literal value and the
remaining characters. -/
def parseSqlLit : List Char → Option (List Char × List Char)
  | [] => none
  | c :: rest =>
    if c = squote then
      match rest with
      | [] => some ([], [])
      | c2 :: cs2 =>
        if c2 = squote then
          (parseSqlLit cs2).map (fun p => (squote :: p.1, p.2))
        else
          some ([], rest)
    else
      (parseSqlLit rest).map (fun p => (c :: p.1, p.2))

/-- Matches an expected run of plain characters, returning the remainder. -/
def matchGlue : List Char → List Char → Option (List Char)
  | [], l => some l
  | _ :: _, [] => none
  | g :: gs, c :: cs => if c = g then matchGlue gs cs else none

/-- Values actually bound by SQLite when executing the interpolated
`insert or ignore` statement: the statement must still have the shape of the
template, and the two literals are lexed by `parseSqlLit`.  `none` is a
syntax error. -/
def parseAddCounterValues (stmt : String) : Option (String × String) :=
  match matchGlue
      ("\ninsert or ignore into counters (path, name)\nvalues (".data ++
        [squote])
      stmt.data with
  | none => none
  | some r1 =>
    match parseSqlLit r1 with
    | none => none
    | some (p, r2) =>
      match matchGlue (", ".data ++ [squote]) r2 with
      | none => none
      | some r3 =>
        match parseSqlLit r3 with
        | none => none
        | some (n, r4) =>
          if r4 = ");\n".data then some (String.mk p, String.mk n) else none

/-- Embedding of `add_counter` (`register_counter`): build the statement by
interpolation, let SQLite parse it, and execute
`insert or ignore` against the unique index on `path`. -/
def add_counter (db : DB) (path name : String) : Except RunError DB :=
  match parseAddCounterValues (addCounterSQL path name) with
  | none => Except.error RunError.storageError
  | some (p, n) =>
    if db.counters.any (fun c => c.path == p) then
      Except.ok db
    else
      Except.ok { db with
        counters := db.counters ++
          [{ counter_id := nextCounterId db, path := p, name := n }] }

/-- Registration of two counters in sequence at the same connection. -/
def regTwice (db : DB) (path name name' : String) : Except RunError DB :=
  match add_counter db path name with
  | Except.error e => Except.error e
  | Except.ok db1 => add_counter db1 path name'

/-! ### Schema creation (`create_schema` over `SCHEMA_SQL`) -/

/-- One `create … if not exists` statement: a no-op when the object already
exists. -/
def createIfNotExists (objs : List SchemaObj) (o : SchemaObj) : List SchemaObj :=
  if o ∈ objs then objs else objs ++ [o]

/-- Embedding of `create_schema`: execute the four
`create … if not exists` statements of `SCHEMA_SQL` in order.  Each
statement is total (never an error), and the data tables are untouched. -/
def create_schema (st : Store) : Store :=
  { st with
    objs :=
      [SchemaObj.countersTable, SchemaObj.pathUniqueIndex,
        SchemaObj.samplesTable, SchemaObj.accessTimeIndex].foldl
        createIfNotExists st.objs }

/-! ### Counter sampler (`read_counter` is `int(open(path).read())`) -/

/-- Underscore character. -/
def uscore : Char := Char.ofNat 95

/-- Characters stripped by Python `int(str)` before parsing (ASCII part of
the Python unicode whitespace; non-ASCII whitespace is outside the scope
of the model). -/
def isPyWs (c : Char) : Bool :=
  c.toNat == 32 || (9 ≤ c.toNat && c.toNat ≤ 13) ||
    (28 ≤ c.toNat && c.toNat ≤ 31)

/-- Strip leading and trailing whitespace. -/
def stripWs (l : List Char) : List Char :=
  ((l.dropWhile isPyWs).reverse.dropWhile isPyWs).reverse

/-- Numeric value of an ASCII digit. -/
def digitVal (c : Char) : Nat := c.toNat - 48

/-- Continuation of the Python base-10 digit scanner: further digits, with a
single underscore allowed only between two digits. -/
def pyDigitsAux : Nat → List Char → Option Nat
  | acc, [] => some acc
  | acc, c :: cs =>
    if c.isDigit then pyDigitsAux (acc * 10 + digitVal c) cs
    else if c = uscore then
      match cs with
      | [] => none
      | d :: cs2 =>
        if d.isDigit then pyDigitsAux (acc * 10 + digitVal d) cs2 else none
    else none

/-- Digit run of Python `int(str)`: at least one digit, then
`pyDigitsAux`. -/
def pyIntCore : List Char → Option Nat
  | [] => none
  | c :: cs => if c.isDigit then pyDigitsAux (digitVal c) cs else none

/-- Embedding of Python `int(str)` on ASCII content: strip whitespace, an
optional single sign, then a digit run (the Python non-ASCII digits and
whitespace are outside the scope of the model). `none` is a `ValueError`. -/
def pyInt (s : String) : Option Int :=
  match stripWs s.data with
  | [] => none
  | c :: cs =>
    if c = Char.ofNat 45 then (pyIntCore cs).map (fun n => -(n : Int))
    else if c = Char.ofNat 43 then (pyIntCore cs).map (fun n => (n : Int))
    else (pyIntCore (c :: cs)).map (fun n => (n : Int))

/-- Filesystem of counter files: `none` models a path that is missing or
unreadable (an `OSError` on `open`/`read`). -/
def FS : Type := String → Option String

/-- Embedding of `read_counter`: open and read the whole file, then parse it
with Python `int`.  Neither error is caught. -/
def read_counter (fs : FS) (path : String) : Except RunError Int :=
  match fs path with
  | none => Except.error RunError.sampleReadError
  | some content =>
    match pyInt content with
    | none => Except.error RunError.sampleParseError
    | some n => Except.ok n

/-! ### Credentials file (`json.dump` / `json.load` of the five fields) -/

/-- Credentials tuple written by `write_credentials_file` and read by
`send_mail`. -/
structure Credentials where
  smtp_server : String
  smtp_port : Int
  sender : String
  recipient : String
  password : String
deriving DecidableEq

/-- Lowercase hexadecimal digit, as produced by the Python `\u%04x`
escapes. -/
def hexDig : Nat → Char
  | 0 => '0' | 1 => '1' | 2 => '2' | 3 => '3' | 4 => '4'
  | 5 => '5' | 6 => '6' | 7 => '7' | 8 => '8' | 9 => '9'
  | 10 => 'a' | 11 => 'b' | 12 => 'c' | 13 => 'd' | 14 => 'e' | 15 => 'f'
  | _ + 16 => '0'

/-- Value of one hexadecimal digit (JSON accepts both cases). -/
def hexVal (c : Char) : Option Nat :=
  if 48 ≤ c.toNat ∧ c.toNat ≤ 57 then some (c.toNat - 48)
  else if 97 ≤ c.toNat ∧ c.toNat ≤ 102 then some (c.toNat - 87)
  else if 65 ≤ c.toNat ∧ c.toNat ≤ 70 then some (c.toNat - 55)
  else none

/-- Four-digit hexadecimal rendering of `n < 0x10000`. -/
def hex4 (n : Nat) : List Char :=
  [hexDig (n / 4096 % 16), hexDig (n / 256 % 16),
    hexDig (n / 16 % 16), hexDig (n % 16)]

/-- Combined value of four hexadecimal digits. -/
def hex4val (a b c d : Char) : Option Nat :=
  match hexVal a, hexVal b, hexVal c, hexVal d with
  | some x, some y, some z, some w => some (((x * 16 + y) * 16 + z) * 16 + w)
  | _, _, _, _ => none

/-- Escape of one character in a JSON string, exactly as the Python
`json.dump` with `ensure_ascii=True`: the short escapes, printable ASCII
verbatim, `\uXXXX` otherwise, with a surrogate pair above `0xffff`. -/
def jsonEscapeChar (c : Char) : List Char :=
  let n := c.toNat
  if n = 34 then [bslash, dquote]
  else if n = 92 then [bslash, bslash]
  else if n = 8 then [bslash, 'b']
  else if n = 9 then [bslash, 't']
  else if n = 10 then [bslash, 'n']
  else if n = 12 then [bslash, 'f']
  else if n = 13 then [bslash, 'r']
  else if 32 ≤ n ∧ n ≤ 126 then [c]
  else if n < 65536 then bslash :: 'u' :: hex4 n
  else
    bslash :: 'u' :: hex4 (55296 + (n - 65536) / 1024) ++
      bslash :: 'u' :: hex4 (56320 + (n - 65536) % 1024)

/-- Escape of a whole string body. -/
def escapeChars : List Char → List Char
  | [] => []
  | c :: cs => jsonEscapeChar c ++ escapeChars cs

/-- Continuation of the JSON string scanner after the high half `n` of a
surrogate pair: expects a second `\uXXXX` escape in the low range and
recombines the two halves; `k` scans the rest of the string. -/
def parseJsonPair (k : List Char → Option (List Char × List Char)) (n : Nat) :
    List Char → Option (List Char × List Char)
  | x :: y :: a2 :: b2 :: c2 :: d2 :: cs4 =>
    if x = bslash ∧ y = 'u' then
      match hex4val a2 b2 c2 d2 with
      | none => none
      | some m =>
        if 56320 ≤ m ∧ m ≤ 57343 then
          (k cs4).map (fun p =>
            (Char.ofNat (65536 + (n - 55296) * 1024 + (m - 56320)) :: p.1, p.2))
        else none
    else none
  | _ => none

/-- Continuation of the JSON string scanner after `\u`: four hexadecimal
digits give either a plain scalar or the high half of a surrogate pair; a
lone surrogate has no `Char` counterpart and is outside the scope of the
model. -/
def parseJsonUni (k : List Char → Option (List Char × List Char)) :
    List Char → Option (List Char × List Char)
  | a :: b :: c1 :: d :: cs3 =>
    match hex4val a b c1 d with
    | none => none
    | some n =>
      if 55296 ≤ n ∧ n ≤ 56319 then parseJsonPair k n cs3
      else if 56320 ≤ n ∧ n ≤ 57343 then none
      else (k cs3).map (fun p => (Char.ofNat n :: p.1, p.2))
  | _ => none

/-- Continuation of the JSON string scanner after a backslash: the short
escapes of `json.load`, or a `\uXXXX` escape. -/
def parseJsonEsc (k : List Char → Option (List Char × List Char)) :
    List Char → Option (List Char × List Char)
  | [] => none
  | e :: cs2 =>
    if e = dquote then (k cs2).map (fun p => (dquote :: p.1, p.2))
    else if e = bslash then (k cs2).map (fun p => (bslash :: p.1, p.2))
    else if e = '/' then (k cs2).map (fun p => ('/' :: p.1, p.2))
    else if e = 'b' then (k cs2).map (fun p => (Char.ofNat 8 :: p.1, p.2))
    else if e = 't' then (k cs2).map (fun p => (Char.ofNat 9 :: p.1, p.2))
    else if e = 'n' then (k cs2).map (fun p => (Char.ofNat 10 :: p.1, p.2))
    else if e = 'f' then (k cs2).map (fun p => (Char.ofNat 12 :: p.1, p.2))
    else if e = 'r' then (k cs2).map (fun p => (Char.ofNat 13 :: p.1, p.2))
    else if e = 'u' then parseJsonUni k cs2
    else none

/-- JSON string scanner (as in `json.load`), positioned after the opening
quote: plain characters, short escapes, `\uXXXX` escapes, and surrogate
pairs recombined.  The fuel argument is a structural termination device;
one unit is spent per scanned token, so any fuel above the input length is
enough. -/
def parseJsonStringF : Nat → List Char → Option (List Char × List Char)
  | 0, _ => none
  | fuel + 1, l =>
    match l with
    | [] => none
    | c :: cs =>
      if c = dquote then some ([], cs)
      else if c = bslash then parseJsonEsc (parseJsonStringF fuel) cs
      else (parseJsonStringF fuel cs).map (fun p => (c :: p.1, p.2))

/-- JSON string scanner with enough fuel for its whole input. -/
def parseJsonString (l : List Char) : Option (List Char × List Char) :=
  parseJsonStringF (l.length + 1) l

/-- Decimal digit character. -/
def digChar (n : Nat) : Char := hexDig (n % 10)

/-- Decimal rendering of a natural number, with explicit fuel so that the
definition computes by kernel reduction; `natChars` supplies enough fuel. -/
def natCharsAux : Nat → Nat → List Char
  | 0, _ => []
  | fuel + 1, n =>
    if n < 10 then [digChar n] else natCharsAux fuel (n / 10) ++ [digChar (n % 10)]

/-- Decimal digits of a natural number. -/
def natChars (n : Nat) : List Char := natCharsAux (n + 1) n

/-- Decimal rendering of a Python `int`, as in `repr`/`json.dump`. -/
def intChars (i : Int) : List Char :=
  if i < 0 then Char.ofNat 45 :: natChars i.natAbs else natChars i.natAbs

/-- Maximal-munch digit scanner, accumulating the value. -/
def digitsGo : Nat → List Char → Nat × List Char
  | acc, [] => (acc, [])
  | acc, c :: cs =>
    if c.isDigit then digitsGo (acc * 10 + digitVal c) cs else (acc, c :: cs)

/-- Run of at least one decimal digit. -/
def digitsRun : List Char → Option (Nat × List Char)
  | [] => none
  | c :: cs => if c.isDigit then some (digitsGo (digitVal c) cs) else none

/-- JSON integer (as emitted by `json.dump` for a Python `int`): an optional
minus sign and a digit run. -/
def parseJsonInt : List Char → Option (Int × List Char)
  | [] => none
  | c :: cs =>
    if c = Char.ofNat 45 then
      (digitsRun cs).map (fun p => (-(p.1 : Int), p.2))
    else
      (digitsRun (c :: cs)).map (fun p => ((p.1 : Int), p.2))

/-- Content written by `write_credentials_file`: `json.dump` of the dict
with its five keys in insertion order, default separators. -/
def encodeCreds (d : Credentials) : List Char :=
  "\x7b\"smtp_server\": \"".data ++ escapeChars d.smtp_server.data ++ [dquote] ++
    ", \"smtp_port\": ".data ++ intChars d.smtp_port ++
    ", \"sender\": \"".data ++ escapeChars d.sender.data ++ [dquote] ++
    ", \"recipient\": \"".data ++ escapeChars d.recipient.data ++ [dquote] ++
    ", \"password\": \"".data ++ escapeChars d.password.data ++ [dquote] ++
    "\x7d".data

/-- The credentials file content as a string. -/
def writeCredentialsContent (d : Credentials) : String :=
  String.mk (encodeCreds d)

/-- Reading the credentials back (`json.load` in `send_mail`), restricted to
the object grammar that `write_credentials_file` emits. `none` is a
malformed credentials file. -/
def parseCreds (l : List Char) : Option Credentials :=
  match matchGlue "\x7b\"smtp_server\": \"".data l with
  | none => none
  | some r1 =>
    match parseJsonString r1 with
    | none => none
    | some (server, r2) =>
      match matchGlue ", \"smtp_port\": ".data r2 with
      | none => none
      | some r3 =>
        match parseJsonInt r3 with
        | none => none
        | some (port, r4) =>
          match matchGlue ", \"sender\": \"".data r4 with
          | none => none
          | some r5 =>
            match parseJsonString r5 with
            | none => none
            | some (sender, r6) =>
              match matchGlue ", \"recipient\": \"".data r6 with
              | none => none
              | some r7 =>
                match parseJsonString r7 with
                | none => none
                | some (recipient, r8) =>
                  match matchGlue ", \"password\": \"".data r8 with
                  | none => none
                  | some r9 =>
                    match parseJsonString r9 with
                    | none => none
                    | some (password, r10) =>
                      if r10 = "\x7d".data then
                        some
                          { smtp_server := String.mk server
                            smtp_port := port
                            sender := String.mk sender
                            recipient := String.mk recipient
                            password := String.mk password }
                      else none

/-! ### Report delivery (`send_mail`) -/

/-- The single message composed per delivery. -/
structure Mail where
  sender : String
  recipient : String
  subject : String
  body : String
deriving DecidableEq

/-- Message composition in `send_mail`: one `"<name>: <delta>"` line per
report entry, joined by newlines, subject `"Linux healthcheck report"`,
from the stored sender to the stored recipient. -/
def composeMail (d : Credentials) (report : List (String × Int)) : Mail :=
  { sender := d.sender
    recipient := d.recipient
    subject := "Linux healthcheck report"
    body := String.intercalate "\n"
      (report.map (fun p => p.1 ++ ": " ++ toString p.2)) }

/-- Embedding of `send_mail`: read and parse the credentials file (a missing
or malformed file is a credentials error), establish the SMTP session
(`smtpOk` is the external transport and login outcome; `false` is a
delivery error), then compose and send exactly one message. -/
def send_mail (credsFile : Option String) (smtpOk : Bool)
    (report : List (String × Int)) : Except RunError Mail :=
  match credsFile with
  | none => Except.error RunError.credentialsError
  | some content =>
    match parseCreds content.data with
    | none => Except.error RunError.credentialsError
    | some d =>
      if smtpOk then Except.ok (composeMail d report)
      else Except.error RunError.deliveryError

/-! ### Run controller (`main`) -/

/-- Loop body of `main` over the registered counters: fetch the baseline,
sample the live value, and on a strict increase append to the report and
record the sample.  Any sampler error aborts the whole loop. -/
def processCounters (fs : FS) :
    List Counter → DB → List (String × Int) →
      Except RunError (DB × List (String × Int))
  | [], db, report => Except.ok (db, report)
  | c :: rest, db, report =>
    match read_counter fs c.path with
    | Except.error e => Except.error e
    | Except.ok newValue =>
      let oldValue := get_counter db c.counter_id
      if oldValue < newValue then
        processCounters fs rest (update_counter db c.counter_id newValue)
          (report ++ [(c.name, newValue - oldValue)])
      else
        processCounters fs rest db report

/-- Embedding of `main`: process every registered counter, then deliver the
report when it is non-empty, then commit.  The returned state is the
committed store; an error aborts before the commit. -/
def main (db : DB) (fs : FS) (credsFile : Option String) (smtpOk : Bool) :
    Except RunError (DB × List (String × Int) × Option Mail) :=
  match processCounters fs db.counters db [] with
  | Except.error e => Except.error e
  | Except.ok (db1, report) =>
    if 0 < report.length then
      match send_mail credsFile smtpOk report with
      | Except.error e => Except.error e
      | Except.ok m => Except.ok (db1, report, some m)
    else Except.ok (db1, report, none)

/-- Persistent state after a run: a successful run commits the session
state; an aborted run never reaches `conn.commit()`, and SQLite discards
the open transaction, leaving the pre-run state. -/
def mainPersist (db : DB) (fs : FS) (credsFile : Option String)
    (smtpOk : Bool) : DB :=
  match main db fs credsFile smtpOk with
  | Except.ok (db1, _, _) => db1
  | Except.error _ => db

/-- Sample value recorded for a counter by the loop body, if any: the live
value when it strictly exceeds the baseline. -/
def counterStep (db : DB) (fs : FS) (c : Counter) : Option Int :=
  match read_counter fs c.path with
  | Except.error _ => none
  | Except.ok v => if get_counter db c.counter_id < v then some v else none

/-- Report entry contributed by a counter, if any. -/
def counterEntry (db : DB) (fs : FS) (c : Counter) : Option (String × Int) :=
  match read_counter fs c.path with
  | Except.error _ => none
  | Except.ok v =>
    if get_counter db c.counter_id < v then
      some (c.name, v - get_counter db c.counter_id)
    else none

/-- Clock invariant of the store: every recorded timestamp is in the past.
Holds for every store built by the operations above. -/
def DB.WFclock (db : DB) : Prop :=
  ∀ s ∈ db.samples, s.access_time < db.clock

instance (db : DB) : Decidable db.WFclock := by
  unfold DB.WFclock; infer_instance

/-! ### Concrete fixtures used to evaluate the theorems -/

/-- Registered counter of the concrete scenario. -/
def wCounter : Counter := ⟨1, "/p", "EDAC"⟩

/-- Fresh store holding one registered counter and no samples. -/
def wDB : DB := ⟨[wCounter], [], 0⟩

/-- Sample of value 10 for the counter. -/
def wSample : Sample := ⟨1, 1, 10, 0⟩

/-- Store after one recorded sample of value 10. -/
def wDB1 : DB := ⟨[wCounter], [wSample], 1⟩

/-- Counter file holding the text `10`. -/
def wFS : FS := fun p => if p = "/p" then some "10" else none

/-- Counter file holding the text `7`. -/
def wFS7 : FS := fun p => if p = "/p" then some "7" else none

/-- Filesystem with no readable file. -/
def wFSnone : FS := fun _ => none

/-- Filesystem with one well-formed and one malformed counter file. -/
def wFS8 : FS := fun p =>
  if p = "/good" then some " 42\n"
  else if p = "/bad" then some "x" else none

/-- Concrete credentials tuple. -/
def wCreds : Credentials := ⟨"s", 25, "a", "b", "pw"⟩

/-- Credentials file content written for `wCreds`. -/
def wFile : Option String := some (writeCredentialsContent wCreds)

/-- Store file with no schema objects and no data. -/
def wStore : Store := ⟨[], ⟨[], [], 0⟩⟩

/-! ### Lemmas about the store -/

theorem maxSample_mem : ∀ {ss : List Sample} {m : Sample},
    maxSample ss = some m → m ∈ ss := by
  intro ss
  induction ss with
  | nil => intro m h; simp [maxSample] at h
  | cons a tl ih =>
    intro m h
    simp only [maxSample, Option.some.injEq] at h
    cases htl : maxSample tl with
    | none => rw [htl] at h; simp only [maxAux] at h; subst h
              exact List.mem_cons_self a tl
    | some m0 =>
      rw [htl] at h
      simp only [maxAux] at h
      by_cases hlt : a.access_time < m0.access_time
      · rw [if_pos hlt] at h
        subst h
        exact List.mem_cons_of_mem a (ih htl)
      · rw [if_neg hlt] at h
        subst h
        exact List.mem_cons_self a tl

theorem maxSample_strict : ∀ {ss : List Sample} {s : Sample}, s ∈ ss →
    (∀ t ∈ ss, t ≠ s → t.access_time < s.access_time) →
    maxSample ss = some s := by
  intro ss
  induction ss with
  | nil => intro s h _; cases h
  | cons a tl ih =>
    intro s hmem hmax
    simp only [maxSample, Option.some.injEq]
    rcases List.mem_cons.mp hmem with heq | htl_mem
    · subst heq
      cases htl : maxSample tl with
      | none => simp [maxAux]
      | some m0 =>
        simp only [maxAux]
        by_cases hms : m0 = s
        · subst hms; simp
        · have : m0.access_time < s.access_time :=
            hmax m0 (List.mem_cons_of_mem s (maxSample_mem htl)) hms
          rw [if_neg (by omega)]
    · have htl : maxSample tl = some s :=
        ih htl_mem (fun t ht hne => hmax t (List.mem_cons_of_mem a ht) hne)
      rw [htl]
      simp only [maxAux]
      by_cases has : a = s
      · subst has; simp
      · have : a.access_time < s.access_time :=
          hmax a (List.mem_cons_self a tl) has
        rw [if_pos this]

theorem samplesFor_mem {db : DB} {cid : Nat} {s : Sample} :
    s ∈ samplesFor db cid → s ∈ db.samples ∧ s.counters_counter_id = cid := by
  intro h
  have := List.mem_filter.mp h
  exact ⟨this.1, by simpa using this.2⟩

theorem samplesFor_update_self (db : DB) (cid : Nat) (v : Int) :
    samplesFor (update_counter db cid v) cid =
      samplesFor db cid ++
        [{ counter_count_id := nextSampleId db
           counters_counter_id := cid
           count := v
           access_time := db.clock }] := by
  simp [samplesFor, update_counter, List.filter_append]

theorem samplesFor_update_ne (db : DB) {cid' cid : Nat} (v : Int)
    (h : cid' ≠ cid) :
    samplesFor (update_counter db cid' v) cid = samplesFor db cid := by
  simp [samplesFor, update_counter, List.filter_append, h]

theorem WFclock_update {db : DB} (h : db.WFclock) (cid : Nat) (v : Int) :
    (update_counter db cid v).WFclock := by
  intro s hs
  simp only [update_counter, List.mem_append, List.mem_singleton] at hs
  rcases hs with hs | hs
  · have := h s hs; simp only [update_counter]; omega
  · subst hs; simp only [update_counter]; omega

theorem get_counter_congr {db1 db2 : DB} {cid : Nat}
    (h : samplesFor db1 cid = samplesFor db2 cid) :
    get_counter db1 cid = get_counter db2 cid := by
  unfold get_counter
  rw [h]

theorem get_counter_update_self {db : DB} (h : db.WFclock) (cid : Nat)
    (v : Int) : get_counter (update_counter db cid v) cid = v := by
  have hmax : maxSample (samplesFor db cid ++
      [{ counter_count_id := nextSampleId db, counters_counter_id := cid,
         count := v, access_time := db.clock }]) =
      some { counter_count_id := nextSampleId db, counters_counter_id := cid,
             count := v, access_time := db.clock } := by
    apply maxSample_strict (List.mem_append_right _ (List.mem_singleton.mpr rfl))
    intro t ht hne
    rcases List.mem_append.mp ht with ht | ht
    · exact h t (samplesFor_mem ht).1
    · exact absurd (List.mem_singleton.mp ht) hne
  unfold get_counter
  rw [samplesFor_update_self, hmax]

theorem counterStep_congr {db1 db2 : DB} (fs : FS) {c : Counter}
    (h : samplesFor db1 c.counter_id = samplesFor db2 c.counter_id) :
    counterStep db1 fs c = counterStep db2 fs c := by
  unfold counterStep
  rw [get_counter_congr h]

theorem counterEntry_congr {db1 db2 : DB} (fs : FS) {c : Counter}
    (h : samplesFor db1 c.counter_id = samplesFor db2 c.counter_id) :
    counterEntry db1 fs c = counterEntry db2 fs c := by
  unfold counterEntry
  rw [get_counter_congr h]

/-! ### The run loop, characterized -/

theorem processCounters_spec (fs : FS) :
    ∀ (cs : List Counter) (db : DB) (r : List (String × Int)),
    db.WFclock →
    (cs.map (fun c => c.counter_id)).Nodup →
    (∀ c ∈ cs, ∃ v, read_counter fs c.path = Except.ok v) →
    ∃ db',
      processCounters fs cs db r =
        Except.ok (db', r ++ cs.filterMap (counterEntry db fs)) ∧
      db'.WFclock ∧
      db'.counters = db.counters ∧
      (∀ cid, (∀ c ∈ cs, c.counter_id ≠ cid) →
        samplesFor db' cid = samplesFor db cid) ∧
      (∀ c ∈ cs,
        (∀ v, counterStep db fs c = some v →
          (samplesFor db' c.counter_id).map (fun s => s.count) =
            (samplesFor db c.counter_id).map (fun s => s.count) ++ [v] ∧
          get_counter db' c.counter_id = v) ∧
        (counterStep db fs c = none →
          samplesFor db' c.counter_id = samplesFor db c.counter_id ∧
          get_counter db' c.counter_id = get_counter db c.counter_id)) := by
  intro cs
  induction cs with
  | nil =>
    intro db r hwf _ _
    exact ⟨db, by simp [processCounters], hwf, rfl, fun _ _ => rfl, by simp⟩
  | cons c rest ih =>
    intro db r hwf hnd hok
    obtain ⟨v, hv⟩ := hok c (List.mem_cons_self c rest)
    have hnd2 : ((c :: rest).map (fun c => c.counter_id)).Nodup := hnd
    rw [List.map_cons, List.nodup_cons] at hnd2
    have hnd' : (rest.map (fun c => c.counter_id)).Nodup := hnd2.2
    have hne_rest : ∀ c' ∈ rest, c'.counter_id ≠ c.counter_id := by
      intro c' hc' heq
      exact hnd2.1 (heq ▸ List.mem_map_of_mem _ hc')
    have hok' : ∀ c' ∈ rest, ∃ v', read_counter fs c'.path = Except.ok v' :=
      fun c' hc' => hok c' (List.mem_cons_of_mem c hc')
    by_cases hlt : get_counter db c.counter_id < v
    · -- the counter increased: one sample is recorded before the rest runs
      have hwf1 : (update_counter db c.counter_id v).WFclock :=
        WFclock_update hwf _ _
      have hsf1 : ∀ c' ∈ rest,
          samplesFor (update_counter db c.counter_id v) c'.counter_id =
            samplesFor db c'.counter_id :=
        fun c' hc' => samplesFor_update_ne db v (Ne.symm (hne_rest c' hc'))
      have hstep1 : ∀ c' ∈ rest,
          counterStep (update_counter db c.counter_id v) fs c' =
            counterStep db fs c' :=
        fun c' hc' => counterStep_congr fs (hsf1 c' hc')
      have hentry1 : ∀ c' ∈ rest,
          counterEntry (update_counter db c.counter_id v) fs c' =
            counterEntry db fs c' :=
        fun c' hc' => counterEntry_congr fs (hsf1 c' hc')
      have hec : counterEntry db fs c =
          some (c.name, v - get_counter db c.counter_id) := by
        simp [counterEntry, hv, hlt]
      obtain ⟨db', hrun, hwf', hcnt, hframe, hper⟩ :=
        ih (update_counter db c.counter_id v)
          (r ++ [(c.name, v - get_counter db c.counter_id)]) hwf1 hnd' hok'
      refine ⟨db', ?_, hwf', ?_, ?_, ?_⟩
      · simp only [processCounters, hv]
        rw [if_pos hlt, hrun, List.filterMap_congr hentry1,
          List.filterMap_cons_some hec]
        simp
      · rw [hcnt]; rfl
      · intro cid hall
        rw [hframe cid (fun c' hc' => hall c' (List.mem_cons_of_mem c hc')),
          samplesFor_update_ne db v (hall c (List.mem_cons_self c rest))]
      · intro c'' hc''
        rcases List.mem_cons.mp hc'' with heq | hmem
        · subst heq
          have hsv : counterStep db fs c'' = some v := by
            simp [counterStep, hv, hlt]
          have hfr : samplesFor db' c''.counter_id =
              samplesFor (update_counter db c''.counter_id v) c''.counter_id :=
            hframe _ hne_rest
          constructor
          · intro v' hstep
            rw [hsv] at hstep
            cases hstep
            constructor
            · rw [hfr, samplesFor_update_self]
              simp
            · rw [get_counter_congr hfr]
              exact get_counter_update_self hwf _ _
          · intro hstep
            rw [hsv] at hstep
            cases hstep
        · have hp := hper c'' hmem
          constructor
          · intro v' hstep
            obtain ⟨hmc, hgc⟩ :=
              hp.1 v' (by rw [hstep1 c'' hmem]; exact hstep)
            rw [hsf1 c'' hmem] at hmc
            exact ⟨hmc, hgc⟩
          · intro hstep
            obtain ⟨hse, hge⟩ := hp.2 (by rw [hstep1 c'' hmem]; exact hstep)
            rw [hsf1 c'' hmem] at hse
            exact ⟨hse, hge.trans (get_counter_congr (hsf1 c'' hmem))⟩
    · -- value not above the baseline: nothing recorded for this counter
      have hsv : counterStep db fs c = none := by
        simp [counterStep, hv, hlt]
      have hec : counterEntry db fs c = none := by
        simp [counterEntry, hv, hlt]
      obtain ⟨db', hrun, hwf', hcnt, hframe, hper⟩ := ih db r hwf hnd' hok'
      refine ⟨db', ?_, hwf', hcnt, ?_, ?_⟩
      · simp only [processCounters, hv]
        rw [if_neg hlt, hrun, List.filterMap_cons_none hec]
      · intro cid hall
        exact hframe cid (fun c' hc' => hall c' (List.mem_cons_of_mem c hc'))
      · intro c'' hc''
        rcases List.mem_cons.mp hc'' with heq | hmem
        · subst heq
          constructor
          · intro v' hstep
            rw [hsv] at hstep
            cases hstep
          · intro _
            have hfr : samplesFor db' c''.counter_id =
                samplesFor db c''.counter_id :=
              hframe _ hne_rest
            exact ⟨hfr, get_counter_congr hfr⟩
        · exact hper c'' hmem

theorem processCounters_err (fs : FS) :
    ∀ (cs : List Counter) (db : DB) (r : List (String × Int)),
    (∃ c ∈ cs, ∃ e, read_counter fs c.path = Except.error e) →
    ∃ e', processCounters fs cs db r = Except.error e' := by
  intro cs
  induction cs with
  | nil =>
    intro db r h
    obtain ⟨c, hc, _⟩ := h
    cases hc
  | cons a rest ih =>
    intro db r h
    obtain ⟨c, hc, e, he⟩ := h
    cases hread : read_counter fs a.path with
    | error e0 =>
      exact ⟨e0, by simp [processCounters, hread]⟩
    | ok v =>
      have hcrest : c ∈ rest := by
        rcases List.mem_cons.mp hc with heq | hmem
        · subst heq; rw [hread] at he; cases he
        · exact hmem
      simp only [processCounters, hread]
      by_cases hlt : get_counter db a.counter_id < v
      · rw [if_pos hlt]
        exact ih _ _ ⟨c, hcrest, e, he⟩
      · rw [if_neg hlt]
        exact ih _ _ ⟨c, hcrest, e, he⟩

/-! ### Lemmas about the interpolated registration statement -/

theorem matchGlue_self : ∀ (g r : List Char), matchGlue g (g ++ r) = some r := by
  intro g
  induction g with
  | nil => intro r; rfl
  | cons c gs ih => intro r; simp [matchGlue, ih]

theorem parseSqlLit_noquote : ∀ (p : List Char), squote ∉ p →
    ∀ (c0 : Char), c0 ≠ squote → ∀ (r : List Char),
    parseSqlLit (p ++ squote :: c0 :: r) = some (p, c0 :: r) := by
  intro p
  induction p with
  | nil =>
    intro _ c0 hc0 r
    simp [parseSqlLit, hc0]
  | cons a p ih =>
    intro hp c0 hc0 r
    have ha : a ≠ squote := by
      intro h
      exact hp (by rw [h]; exact List.mem_cons_self _ _)
    have hp' : squote ∉ p := fun h => hp (List.mem_cons_of_mem a h)
    rw [List.cons_append, parseSqlLit.eq_def]
    simp [ha, ih hp' c0 hc0 r]

theorem parseAddCounterValues_noquote (path name : String)
    (hp : squote ∉ path.data) (hn : squote ∉ name.data) :
    parseAddCounterValues (addCounterSQL path name) = some (path, name) := by
  obtain ⟨pl⟩ := path
  obtain ⟨nl⟩ := name
  simp only [String.data] at hp hn
  have hdecomp : (addCounterSQL ⟨pl⟩ ⟨nl⟩).data =
      ("\ninsert or ignore into counters (path, name)\nvalues (".data ++
        [squote]) ++
        (pl ++ (squote :: ',' :: ' ' :: squote ::
          (nl ++ (squote :: ')' :: ';' :: '\n' :: [])))) := by
    simp [addCounterSQL, sq, String.data_append]
  have h2 : parseSqlLit (pl ++ squote :: ',' :: ' ' :: squote ::
      (nl ++ (squote :: ')' :: ';' :: '\n' :: []))) =
      some (pl, ',' :: ' ' :: squote ::
        (nl ++ (squote :: ')' :: ';' :: '\n' :: []))) :=
    parseSqlLit_noquote pl hp ',' (by decide) _
  have h3 : matchGlue (", ".data ++ [squote])
      (',' :: ' ' :: squote :: (nl ++ (squote :: ')' :: ';' :: '\n' :: []))) =
      some (nl ++ (squote :: ')' :: ';' :: '\n' :: [])) :=
    matchGlue_self (", ".data ++ [squote]) _
  have h4 : parseSqlLit (nl ++ (squote :: ')' :: ';' :: '\n' :: [])) =
      some (nl, ')' :: ';' :: '\n' :: []) :=
    parseSqlLit_noquote nl hn ')' (by decide) _
  simp only [parseAddCounterValues, hdecomp, matchGlue_self, h2, h3, h4]
  simp

theorem add_counter_noquote (db : DB) (path name : String)
    (hp : squote ∉ path.data) (hn : squote ∉ name.data) :
    add_counter db path name =
      (if db.counters.any (fun c => c.path == path) then Except.ok db
       else Except.ok { db with
         counters := db.counters ++
           [{ counter_id := nextCounterId db, path := path, name := name }] }) := by
  unfold add_counter
  rw [parseAddCounterValues_noquote path name hp hn]

/-! ### Round trip of the JSON escapes -/

theorem char_eq_of_toNat {c : Char} {k : Nat} (h : c.toNat = k) :
    c = Char.ofNat k := by
  rw [← h, Char.ofNat_toNat]

theorem hexVal_hexDig (k : Nat) (h : k < 16) : hexVal (hexDig k) = some k := by
  interval_cases k <;> rfl

theorem hex4val_hex4 (n : Nat) (h : n < 65536) :
    hex4val (hexDig (n / 4096 % 16)) (hexDig (n / 256 % 16))
      (hexDig (n / 16 % 16)) (hexDig (n % 16)) = some n := by
  rw [hex4val, hexVal_hexDig _ (by omega), hexVal_hexDig _ (by omega),
    hexVal_hexDig _ (by omega), hexVal_hexDig _ (by omega)]
  simp only [Option.some.injEq]
  omega

theorem pjsF_u (fuel : Nat) (a b c1 d : Char) (rest : List Char) (n : Nat)
    (h : hex4val a b c1 d = some n) (h1 : 55296 ≤ n) (h2 : n ≤ 56319) :
    parseJsonStringF (fuel + 1) (bslash :: 'u' :: a :: b :: c1 :: d :: rest) =
      parseJsonPair (parseJsonStringF fuel) n rest := by
  simp [parseJsonStringF, parseJsonEsc, parseJsonUni, h, h1, h2,
    (by decide : bslash ≠ dquote),
    (by decide : ('u' : Char) ≠ dquote), (by decide : ('u' : Char) ≠ bslash),
    (by decide : ('u' : Char) ≠ '/'), (by decide : ('u' : Char) ≠ 'b'),
    (by decide : ('u' : Char) ≠ 't'), (by decide : ('u' : Char) ≠ 'n'),
    (by decide : ('u' : Char) ≠ 'f'), (by decide : ('u' : Char) ≠ 'r')]

theorem pair_hit (k : List Char → Option (List Char × List Char)) (n : Nat)
    (a b c1 d : Char) (rest : List Char) (m : Nat)
    (h : hex4val a b c1 d = some m) (h1 : 56320 ≤ m) (h2 : m ≤ 57343) :
    parseJsonPair k n (bslash :: 'u' :: a :: b :: c1 :: d :: rest) =
      (k rest).map (fun p =>
        (Char.ofNat (65536 + (n - 55296) * 1024 + (m - 56320)) :: p.1, p.2)) := by
  simp [parseJsonPair, h, h1, h2]

set_option maxHeartbeats 1000000 in
theorem parse_escape (fuel : Nat) (c : Char) (X : List Char) :
    parseJsonStringF (fuel + 1) (jsonEscapeChar c ++ X) =
      (parseJsonStringF fuel X).map (fun p => (c :: p.1, p.2)) := by
  have hvalid : c.toNat < 55296 ∨ (57343 < c.toNat ∧ c.toNat < 1114112) :=
    c.valid
  have nbd : bslash ≠ dquote := by decide
  by_cases h34 : c.toNat = 34
  · have he : jsonEscapeChar c = [bslash, dquote] := by
      simp [jsonEscapeChar, h34]
    have hc : c = dquote := char_eq_of_toNat h34
    subst hc
    rw [he]
    simp [parseJsonStringF, parseJsonEsc, nbd]
  by_cases h92 : c.toNat = 92
  · have he : jsonEscapeChar c = [bslash, bslash] := by
      simp [jsonEscapeChar, h34, h92]
    have hc : c = bslash := char_eq_of_toNat h92
    subst hc
    rw [he]
    simp [parseJsonStringF, parseJsonEsc, nbd]
  by_cases h8 : c.toNat = 8
  · have he : jsonEscapeChar c = [bslash, 'b'] := by
      simp [jsonEscapeChar, h34, h92, h8]
    have hc : c = Char.ofNat 8 := char_eq_of_toNat h8
    subst hc
    rw [he]
    simp [parseJsonStringF, parseJsonEsc, nbd,
      (by decide : ('b' : Char) ≠ dquote), (by decide : ('b' : Char) ≠ bslash),
      (by decide : ('b' : Char) ≠ '/')]
  by_cases h9 : c.toNat = 9
  · have he : jsonEscapeChar c = [bslash, 't'] := by
      simp [jsonEscapeChar, h34, h92, h8, h9]
    have hc : c = Char.ofNat 9 := char_eq_of_toNat h9
    subst hc
    rw [he]
    simp [parseJsonStringF, parseJsonEsc, nbd,
      (by decide : ('t' : Char) ≠ dquote), (by decide : ('t' : Char) ≠ bslash),
      (by decide : ('t' : Char) ≠ '/'), (by decide : ('t' : Char) ≠ 'b')]
  by_cases h10 : c.toNat = 10
  · have he : jsonEscapeChar c = [bslash, 'n'] := by
      simp [jsonEscapeChar, h34, h92, h8, h9, h10]
    have hc : c = Char.ofNat 10 := char_eq_of_toNat h10
    subst hc
    rw [he]
    simp [parseJsonStringF, parseJsonEsc, nbd,
      (by decide : ('n' : Char) ≠ dquote), (by decide : ('n' : Char) ≠ bslash),
      (by decide : ('n' : Char) ≠ '/'), (by decide : ('n' : Char) ≠ 'b'),
      (by decide : ('n' : Char) ≠ 't')]
  by_cases h12 : c.toNat = 12
  · have he : jsonEscapeChar c = [bslash, 'f'] := by
      simp [jsonEscapeChar, h34, h92, h8, h9, h10, h12]
    have hc : c = Char.ofNat 12 := char_eq_of_toNat h12
    subst hc
    rw [he]
    simp [parseJsonStringF, parseJsonEsc, nbd,
      (by decide : ('f' : Char) ≠ dquote), (by decide : ('f' : Char) ≠ bslash),
      (by decide : ('f' : Char) ≠ '/'), (by decide : ('f' : Char) ≠ 'b'),
      (by decide : ('f' : Char) ≠ 't'), (by decide : ('f' : Char) ≠ 'n')]
  by_cases h13 : c.toNat = 13
  · have he : jsonEscapeChar c = [bslash, 'r'] := by
      simp [jsonEscapeChar, h34, h92, h8, h9, h10, h12, h13]
    have hc : c = Char.ofNat 13 := char_eq_of_toNat h13
    subst hc
    rw [he]
    simp [parseJsonStringF, parseJsonEsc, nbd,
      (by decide : ('r' : Char) ≠ dquote), (by decide : ('r' : Char) ≠ bslash),
      (by decide : ('r' : Char) ≠ '/'), (by decide : ('r' : Char) ≠ 'b'),
      (by decide : ('r' : Char) ≠ 't'), (by decide : ('r' : Char) ≠ 'n'),
      (by decide : ('r' : Char) ≠ 'f')]
  by_cases hpr : 32 ≤ c.toNat ∧ c.toNat ≤ 126
  · have he : jsonEscapeChar c = [c] := by
      simp [jsonEscapeChar, h34, h92, h8, h9, h10, h12, h13, hpr.1, hpr.2]
    have hcd : c ≠ dquote := by
      intro h
      exact h34 (by rw [h]; rfl)
    have hcb : c ≠ bslash := by
      intro h
      exact h92 (by rw [h]; rfl)
    rw [he]
    simp [parseJsonStringF, hcd, hcb]
  have hu : ∀ (q : Char), ('u' : Char) ≠ q → (('u' : Char) = q) = False :=
    fun q h => eq_false h
  by_cases hbmp : c.toNat < 65536
  · have he : jsonEscapeChar c = bslash :: 'u' :: hex4 c.toNat := by
      simp [jsonEscapeChar, h34, h92, h8, h9, h10, h12, h13, hpr, hbmp]
    have hsur1 : ¬(55296 ≤ c.toNat ∧ c.toNat ≤ 56319) := by omega
    have hsur2 : ¬(56320 ≤ c.toNat ∧ c.toNat ≤ 57343) := by omega
    rw [he, hex4]
    simp [parseJsonStringF, parseJsonEsc, parseJsonUni, nbd,
      hex4val_hex4 c.toNat hbmp, hsur1, hsur2,
      (by decide : ('u' : Char) ≠ dquote), (by decide : ('u' : Char) ≠ bslash),
      (by decide : ('u' : Char) ≠ '/'), (by decide : ('u' : Char) ≠ 'b'),
      (by decide : ('u' : Char) ≠ 't'), (by decide : ('u' : Char) ≠ 'n'),
      (by decide : ('u' : Char) ≠ 'f'), (by decide : ('u' : Char) ≠ 'r')]
  · -- astral plane: the encoder emits a surrogate pair
    have hlow : 65536 ≤ c.toNat := by omega
    have hhig : c.toNat < 1114112 := by omega
    have he : jsonEscapeChar c =
        bslash :: 'u' :: hex4 (55296 + (c.toNat - 65536) / 1024) ++
          bslash :: 'u' :: hex4 (56320 + (c.toNat - 65536) % 1024) := by
      simp [jsonEscapeChar, h34, h92, h8, h9, h10, h12, h13, hpr, hbmp]
    rw [he, hex4, hex4]
    simp only [List.cons_append, List.append_assoc, List.nil_append]
    have hxhi := hex4val_hex4 (55296 + (c.toNat - 65536) / 1024) (by omega)
    have hxlo := hex4val_hex4 (56320 + (c.toNat - 65536) % 1024) (by omega)
    rw [pjsF_u _ _ _ _ _ _ _ hxhi (by omega) (by omega)]
    rw [pair_hit _ _ _ _ _ _ _ _ hxlo (by omega) (by omega)]
    have harith : 65536 + (55296 + (c.toNat - 65536) / 1024 - 55296) * 1024 +
        (56320 + (c.toNat - 65536) % 1024 - 56320) = c.toNat := by omega
    rw [harith, Char.ofNat_toNat]

theorem parse_escapeChars : ∀ (s : List Char) (k : Nat) (X : List Char),
    parseJsonStringF (s.length + k + 1) (escapeChars s ++ (dquote :: X)) =
      some (s, X) := by
  intro s
  induction s with
  | nil =>
    intro k X
    rw [escapeChars, List.nil_append]
    simp [parseJsonStringF]
  | cons c cs ih =>
    intro k X
    rw [escapeChars, List.append_assoc]
    have hfuel : (c :: cs).length + k + 1 = (cs.length + k + 1) + 1 := by
      simp
      omega
    rw [hfuel, parse_escape, ih]
    rfl

theorem escapeChar_ne_nil (c : Char) : jsonEscapeChar c ≠ [] := by
  unfold jsonEscapeChar
  dsimp only
  split_ifs <;> simp [hex4]

theorem escapeChars_length_ge (s : List Char) :
    s.length ≤ (escapeChars s).length := by
  induction s with
  | nil => simp [escapeChars]
  | cons c cs ih =>
    rw [escapeChars, List.length_append]
    have := escapeChar_ne_nil c
    have : 1 ≤ (jsonEscapeChar c).length := by
      cases h : jsonEscapeChar c with
      | nil => exact absurd h (escapeChar_ne_nil c)
      | cons a l => simp
    simp only [List.length_cons]
    omega

theorem parseJsonString_escape (s : List Char) (X : List Char) :
    parseJsonString (escapeChars s ++ (dquote :: X)) = some (s, X) := by
  unfold parseJsonString
  have hlen : (escapeChars s ++ (dquote :: X)).length + 1 =
      s.length + ((escapeChars s).length - s.length + X.length + 1) + 1 := by
    have := escapeChars_length_ge s
    simp only [List.length_append, List.length_cons]
    omega
  rw [hlen, parse_escapeChars]

/-! ### Round trip of the decimal rendering -/

theorem hexDig_digit (k : Nat) (h : k < 10) :
    (hexDig k).isDigit = true ∧ digitVal (hexDig k) = k := by
  interval_cases k <;> exact ⟨rfl, rfl⟩

theorem natCharsAux_spec : ∀ (fuel n : Nat), n < fuel →
    (∀ c ∈ natCharsAux fuel n, c.isDigit = true) ∧
    natCharsAux fuel n ≠ [] ∧
    ∀ acc, (natCharsAux fuel n).foldl (fun a c => a * 10 + digitVal c) acc =
      acc * 10 ^ (natCharsAux fuel n).length + n := by
  intro fuel
  induction fuel with
  | zero => intro n h; omega
  | succ fuel ih =>
    intro n h
    rw [natCharsAux]
    by_cases h10 : n < 10
    · rw [if_pos h10]
      have hd := hexDig_digit (n % 10) (by omega)
      have hmod : n % 10 = n := Nat.mod_eq_of_lt h10
      refine ⟨?_, by simp, ?_⟩
      · intro c hc
        rw [List.mem_singleton.mp hc]
        exact hd.1
      · intro acc
        simp only [List.foldl_cons, List.foldl_nil, List.length_cons,
          List.length_nil, digChar]
        rw [hd.2, hmod]
        norm_num
    · rw [if_neg h10]
      have hn10 : n / 10 < fuel := by omega
      obtain ⟨hdig, hne, hval⟩ := ih (n / 10) hn10
      have hd := hexDig_digit (n % 10) (by omega)
      have hmm10 : n % 10 % 10 = n % 10 := by omega
      refine ⟨?_, by simp, ?_⟩
      · intro c hc
        rcases List.mem_append.mp hc with hc | hc
        · exact hdig c hc
        · rw [List.mem_singleton.mp hc]
          simp only [digChar, hmm10]
          exact hd.1
      · intro acc
        rw [List.foldl_append, hval acc]
        simp only [List.foldl_cons, List.foldl_nil, List.length_append,
          List.length_cons, List.length_nil, digChar, hmm10]
        rw [hd.2]
        have hpow : 10 ^ ((natCharsAux fuel (n / 10)).length + (0 + 1)) =
            10 ^ (natCharsAux fuel (n / 10)).length * 10 := by
          rw [Nat.add_comm 0 1]
          exact pow_succ 10 _
        rw [hpow]
        have := Nat.div_add_mod n 10
        set P := 10 ^ (natCharsAux fuel (n / 10)).length
        ring_nf
        omega

theorem digitsGo_all : ∀ (ds : List Char), (∀ c ∈ ds, c.isDigit = true) →
    ∀ (acc : Nat) (r : List Char),
    digitsGo acc (ds ++ r) =
      digitsGo (ds.foldl (fun a c => a * 10 + digitVal c) acc) r := by
  intro ds
  induction ds with
  | nil => intro _ acc r; rfl
  | cons c cs ih =>
    intro hd acc r
    rw [List.cons_append, digitsGo]
    rw [if_pos (hd c (List.mem_cons_self c cs))]
    rw [ih (fun c' hc' => hd c' (List.mem_cons_of_mem c hc')), List.foldl_cons]

theorem digitsGo_stop (acc : Nat) (r : List Char)
    (hr : ∀ c cs, r = c :: cs → c.isDigit = false) :
    digitsGo acc r = (acc, r) := by
  cases r with
  | nil => rfl
  | cons c cs =>
    rw [digitsGo, if_neg]
    rw [hr c cs rfl]
    simp

theorem digitsRun_natChars (n : Nat) (r : List Char)
    (hr : ∀ c cs, r = c :: cs → c.isDigit = false) :
    digitsRun (natChars n ++ r) = some (n, r) := by
  unfold natChars
  obtain ⟨hdig, hne, hval⟩ := natCharsAux_spec (n + 1) n (by omega)
  cases hcase : natCharsAux (n + 1) n with
  | nil => exact absurd hcase hne
  | cons c0 cs0 =>
    rw [List.cons_append, digitsRun]
    have hc0 : c0.isDigit = true := by
      apply hdig
      rw [hcase]
      exact List.mem_cons_self c0 cs0
    rw [if_pos hc0]
    have hall : ∀ c ∈ cs0, c.isDigit = true := by
      intro c hc
      apply hdig
      rw [hcase]
      exact List.mem_cons_of_mem c0 hc
    rw [digitsGo_all cs0 hall _ r, digitsGo_stop _ r hr]
    have hv := hval 0
    rw [hcase, List.foldl_cons] at hv
    simp only [Nat.zero_mul, Nat.zero_add] at hv
    rw [hv]

theorem parseJsonInt_intChars (i : Int) (r : List Char)
    (hr : ∀ c cs, r = c :: cs → c.isDigit = false) :
    parseJsonInt (intChars i ++ r) = some (i, r) := by
  unfold intChars
  by_cases hneg : i < 0
  · rw [if_pos hneg, List.cons_append, parseJsonInt]
    rw [if_pos rfl, digitsRun_natChars _ _ hr]
    simp only [Option.map_some']
    have : -(i.natAbs : Int) = i := by omega
    rw [this]
  · rw [if_neg hneg]
    obtain ⟨hdig, hne, _⟩ := natCharsAux_spec (i.natAbs + 1) i.natAbs (by omega)
    have hne' : natChars i.natAbs ≠ [] := hne
    cases hcase : natChars i.natAbs with
    | nil => exact absurd hcase hne'
    | cons c0 cs0 =>
      rw [List.cons_append, parseJsonInt]
      have hc0 : c0.isDigit = true := by
        apply hdig
        rw [show natCharsAux (i.natAbs + 1) i.natAbs = c0 :: cs0 from hcase]
        exact List.mem_cons_self c0 cs0
      have hc45 : c0 ≠ Char.ofNat 45 := by
        intro h
        rw [h] at hc0
        exact absurd hc0 (by decide)
      rw [if_neg hc45, show c0 :: (cs0 ++ r) = (c0 :: cs0) ++ r from rfl,
        ← hcase, digitsRun_natChars _ _ hr]
      simp only [Option.map_some']
      have : (i.natAbs : Int) = i := by omega
      rw [this]

/-! ### Round trip of the credentials file -/

theorem matchGlue_nil (l : List Char) : matchGlue [] l = some l := rfl

theorem matchGlue_cons (c : Char) (gs l : List Char) :
    matchGlue (c :: gs) (c :: l) = matchGlue gs l := by
  simp [matchGlue]

theorem parseJsonInt_comma (i : Int) (R : List Char) :
    parseJsonInt (intChars i ++ (Char.ofNat 44 :: R)) =
      some (i, Char.ofNat 44 :: R) := by
  apply parseJsonInt_intChars
  intro c cs h
  injection h with h1 _
  subst h1
  decide

theorem mk_data (s : String) : String.mk s.data = s := rfl

set_option maxHeartbeats 2000000 in
theorem parseCreds_encodeCreds (d : Credentials) :
    parseCreds (encodeCreds d) = some d := by
  rw [encodeCreds]
  simp only [List.append_assoc, List.singleton_append, List.cons_append,
    List.nil_append]
  simp only [parseCreds, matchGlue_self, matchGlue_cons, matchGlue_nil,
    parseJsonString_escape, parseJsonInt_comma, mk_data]
  simp

/-! ### Inversion of a successful run -/

theorem processCounters_ok_reads (fs : FS) :
    ∀ (cs : List Counter) (db : DB) (r : List (String × Int))
      (out : DB × List (String × Int)),
    processCounters fs cs db r = Except.ok out →
    ∀ c ∈ cs, ∃ v, read_counter fs c.path = Except.ok v := by
  intro cs
  induction cs with
  | nil => intro db r out _ c hc; cases hc
  | cons a rest ih =>
    intro db r out h c hc
    cases hread : read_counter fs a.path with
    | error e =>
      simp only [processCounters, hread] at h
      cases h
    | ok v =>
      simp only [processCounters, hread] at h
      rcases List.mem_cons.mp hc with heq | hmem
      · exact ⟨v, heq ▸ hread⟩
      · by_cases hlt : get_counter db a.counter_id < v
        · rw [if_pos hlt] at h
          exact ih _ _ _ h c hmem
        · rw [if_neg hlt] at h
          exact ih _ _ _ h c hmem

theorem main_ok_inv (db : DB) (fs : FS) (credsFile : Option String)
    (smtpOk : Bool) (db' : DB) (report : List (String × Int))
    (mail : Option Mail)
    (h : main db fs credsFile smtpOk = Except.ok (db', report, mail)) :
    processCounters fs db.counters db [] = Except.ok (db', report) := by
  rw [main] at h
  cases hp : processCounters fs db.counters db [] with
  | error e => rw [hp] at h; cases h
  | ok out =>
    obtain ⟨db1, rep⟩ := out
    rw [hp] at h
    simp only [] at h
    by_cases hlen : 0 < rep.length
    · rw [if_pos hlen] at h
      cases hm : send_mail credsFile smtpOk rep with
      | error e => rw [hm] at h; cases h
      | ok m =>
        rw [hm] at h
        injection h with h1
        injection h1 with h2 h3
        injection h3 with h4 _
        rw [h2, h4]
    · rw [if_neg hlen] at h
      injection h with h1
      injection h1 with h2 h3
      injection h3 with h4 _
      rw [h2, h4]

theorem counterEntry_name {db : DB} {fs : FS} {c : Counter}
    {p : String × Int} (h : counterEntry db fs c = some p) :
    p.1 = c.name := by
  rw [counterEntry] at h
  cases hread : read_counter fs c.path with
  | error e => rw [hread] at h; cases h
  | ok v =>
    rw [hread] at h
    simp only [] at h
    by_cases hlt : get_counter db c.counter_id < v
    · rw [if_pos hlt] at h
      cases h
      rfl
    · rw [if_neg hlt] at h
      cases h

/-! ### Lemmas about schema creation -/

theorem mem_createIfNotExists (objs : List SchemaObj) (o : SchemaObj) :
    o ∈ createIfNotExists objs o := by
  unfold createIfNotExists
  by_cases h : o ∈ objs
  · rw [if_pos h]; exact h
  · rw [if_neg h]; exact List.mem_append_right _ (List.mem_singleton.mpr rfl)

theorem mem_createIfNotExists_mono {objs : List SchemaObj} {o : SchemaObj}
    (o' : SchemaObj) (h : o ∈ objs) : o ∈ createIfNotExists objs o' := by
  unfold createIfNotExists
  by_cases h' : o' ∈ objs
  · rw [if_pos h']; exact h
  · rw [if_neg h']; exact List.mem_append_left _ h

theorem createIfNotExists_nodup {objs : List SchemaObj} (o : SchemaObj)
    (h : objs.Nodup) : (createIfNotExists objs o).Nodup := by
  unfold createIfNotExists
  by_cases h' : o ∈ objs
  · rw [if_pos h']; exact h
  · rw [if_neg h']
    simp [List.nodup_append, h, h']

theorem createIfNotExists_mem_eq {objs : List SchemaObj} {o : SchemaObj}
    (h : o ∈ objs) : createIfNotExists objs o = objs := by
  unfold createIfNotExists
  rw [if_pos h]

theorem create_schema_mem (st : Store) :
    SchemaObj.countersTable ∈ (create_schema st).objs ∧
    SchemaObj.pathUniqueIndex ∈ (create_schema st).objs ∧
    SchemaObj.samplesTable ∈ (create_schema st).objs ∧
    SchemaObj.accessTimeIndex ∈ (create_schema st).objs := by
  rw [create_schema]
  simp only [List.foldl_cons, List.foldl_nil]
  refine ⟨?_, ?_, ?_, ?_⟩
  · exact mem_createIfNotExists_mono _ (mem_createIfNotExists_mono _
      (mem_createIfNotExists_mono _ (mem_createIfNotExists _ _)))
  · exact mem_createIfNotExists_mono _ (mem_createIfNotExists_mono _
      (mem_createIfNotExists _ _))
  · exact mem_createIfNotExists_mono _ (mem_createIfNotExists _ _)
  · exact mem_createIfNotExists _ _

theorem create_schema_nodup {st : Store} (h : st.objs.Nodup) :
    (create_schema st).objs.Nodup := by
  rw [create_schema]
  simp only [List.foldl_cons, List.foldl_nil]
  exact createIfNotExists_nodup _ (createIfNotExists_nodup _
    (createIfNotExists_nodup _ (createIfNotExists_nodup _ h)))

theorem create_schema_db (st : Store) : (create_schema st).db = st.db := rfl

theorem create_schema_idem (st : Store) :
    create_schema (create_schema st) = create_schema st := by
  obtain ⟨hm1, hm2, hm3, hm4⟩ := create_schema_mem st
  cases hst : create_schema st with
  | mk objs1 db1 =>
    rw [hst] at hm1 hm2 hm3 hm4
    rw [create_schema]
    simp only [List.foldl_cons, List.foldl_nil]
    rw [createIfNotExists_mem_eq hm1, createIfNotExists_mem_eq hm2,
      createIfNotExists_mem_eq hm3, createIfNotExists_mem_eq hm4]

theorem create_schema_iterate (st : Store) :
    ∀ (n : Nat), 1 ≤ n → create_schema^[n] st = create_schema st := by
  intro n
  induction n with
  | zero => intro h; omega
  | succ n ih =>
    intro _
    by_cases hn : 1 ≤ n
    · rw [Function.iterate_succ_apply', ih hn, create_schema_idem]
    · have : n = 0 := by omega
      subst this
      rw [Function.iterate_one]

/-! ## The claims -/

/-- Claim C1: for every registered counter processed during a successful
run, if the sampled current value is strictly greater than the baseline
returned by `latest_value` (`get_counter`), then exactly one new Sample
with `count` equal to the current value is recorded for that counter — the
sample rows of the counter in the committed store are the old rows plus one
row carrying the current value — and the report of the run contains the
pair `(name, current - baseline)`. -/
theorem claim_C1 (db : DB) (fs : FS) (credsFile : Option String)
    (smtpOk : Bool) (db' : DB) (report : List (String × Int))
    (mail : Option Mail) (hwf : db.WFclock)
    (hnodup : (db.counters.map (fun c => c.counter_id)).Nodup)
    (hrun : main db fs credsFile smtpOk = Except.ok (db', report, mail))
    (c : Counter) (hc : c ∈ db.counters) (v : Int)
    (hv : read_counter fs c.path = Except.ok v)
    (hgt : get_counter db c.counter_id < v) :
    (samplesFor db' c.counter_id).map (fun s => s.count) =
      (samplesFor db c.counter_id).map (fun s => s.count) ++ [v] ∧
    (c.name, v - get_counter db c.counter_id) ∈ report := by
  have hp := main_ok_inv db fs credsFile smtpOk db' report mail hrun
  have hok := processCounters_ok_reads fs db.counters db [] _ hp
  obtain ⟨db'', hrun2, _, _, _, hper⟩ :=
    processCounters_spec fs db.counters db [] hwf hnodup hok
  rw [hp] at hrun2
  injection hrun2 with hrun3
  injection hrun3 with hdb hrep
  subst hdb
  have hstep : counterStep db fs c = some v := by
    simp [counterStep, hv, hgt]
  constructor
  · exact ((hper c hc).1 v hstep).1
  · have hentry : counterEntry db fs c =
        some (c.name, v - get_counter db c.counter_id) := by
      simp [counterEntry, hv, hgt]
    rw [hrep]
    simp only [List.nil_append]
    exact List.mem_filterMap.mpr ⟨c, hc, hentry⟩

/-- Claim C2: for every registered counter processed during a successful
run, if the sampled current value is at most the baseline (equal values and
decreases included), then no new Sample is recorded for that counter, its
stored baseline is unchanged, and the counter is absent from the report of
the run.  Report entries carry only a name, so "absent" is stated through
the name; the hypothesis `hname` pins the name to this counter. -/
theorem claim_C2 (db : DB) (fs : FS) (credsFile : Option String)
    (smtpOk : Bool) (db' : DB) (report : List (String × Int))
    (mail : Option Mail) (hwf : db.WFclock)
    (hnodup : (db.counters.map (fun c => c.counter_id)).Nodup)
    (hrun : main db fs credsFile smtpOk = Except.ok (db', report, mail))
    (c : Counter) (hc : c ∈ db.counters) (v : Int)
    (hv : read_counter fs c.path = Except.ok v)
    (hle : v ≤ get_counter db c.counter_id)
    (hname : ∀ c' ∈ db.counters, c'.name = c.name → c' = c) :
    samplesFor db' c.counter_id = samplesFor db c.counter_id ∧
    get_counter db' c.counter_id = get_counter db c.counter_id ∧
    c.name ∉ report.map Prod.fst := by
  have hp := main_ok_inv db fs credsFile smtpOk db' report mail hrun
  have hok := processCounters_ok_reads fs db.counters db [] _ hp
  obtain ⟨db'', hrun2, _, _, _, hper⟩ :=
    processCounters_spec fs db.counters db [] hwf hnodup hok
  rw [hp] at hrun2
  injection hrun2 with hrun3
  injection hrun3 with hdb hrep
  subst hdb
  have hnlt : ¬ get_counter db c.counter_id < v := by omega
  have hstep : counterStep db fs c = none := by
    simp [counterStep, hv, hnlt]
  have hentry : counterEntry db fs c = none := by
    simp [counterEntry, hv, hnlt]
  obtain ⟨hsame, hbase⟩ := (hper c hc).2 hstep
  refine ⟨hsame, hbase, ?_⟩
  intro habs
  obtain ⟨⟨nm, d⟩, hmem, hfst⟩ := List.mem_map.mp habs
  rw [hrep] at hmem
  simp only [List.nil_append] at hmem
  obtain ⟨c', hc', he'⟩ := List.mem_filterMap.mp hmem
  have : c'.name = c.name := by
    have := counterEntry_name he'
    simp only at this hfst
    rw [← this, hfst]
  have hcc : c' = c := hname c' hc' this
  rw [hcc, hentry] at he'
  cases he'

/-- Claim C3: `latest_value` (`get_counter`) returns the `count` of the
most recent Sample of the counter ordered by observation timestamp — stated
for the strictly most recent sample, since the logical clock makes
timestamps unique — and returns `0` when the counter has no Sample at
all. -/
theorem claim_C3 (db : DB) (cid : Nat) :
    (samplesFor db cid = [] → get_counter db cid = 0) ∧
    (∀ s, s ∈ samplesFor db cid →
      (∀ t ∈ samplesFor db cid, t ≠ s → t.access_time < s.access_time) →
      get_counter db cid = s.count) := by
  constructor
  · intro h
    rw [get_counter, h]
    rfl
  · intro s hmem hmax
    rw [get_counter, maxSample_strict hmem hmax]

/-- Claim C4: a sampler failure on any registered counter makes the whole
run fail, and any failed run — a read, parse or delivery failure — leaves
the persistent store at its pre-run state: the uncommitted transaction is
discarded, so no sample recorded earlier in the run is persisted. -/
theorem claim_C4 (db : DB) (fs : FS) (credsFile : Option String)
    (smtpOk : Bool)
    (h : (∃ c ∈ db.counters, ∃ e, read_counter fs c.path = Except.error e) ∨
      (∃ e, main db fs credsFile smtpOk = Except.error e)) :
    (∃ e, main db fs credsFile smtpOk = Except.error e) ∧
    mainPersist db fs credsFile smtpOk = db := by
  have herr : ∃ e, main db fs credsFile smtpOk = Except.error e := by
    rcases h with h | h
    · obtain ⟨e', hpc⟩ := processCounters_err fs db.counters db [] h
      exact ⟨e', by rw [main, hpc]⟩
    · exact h
  obtain ⟨e, he⟩ := herr
  exact ⟨⟨e, he⟩, by rw [mainPersist, he]⟩

/-- Claim C5, counterexample: for a path that contains single quotes the
claim fails as stated.  Registering the path consisting of the characters
`a`, two single quotes, `b` stores a row whose path is `a`, one quote, `b`
(SQLite lexes the doubled quote), so after registering it twice from an
empty store no row at all exists for the registered path, not exactly
one. -/
theorem claim_C5_counterexample :
    regTwice ⟨[], [], 0⟩
        (String.mk [Char.ofNat 97, squote, squote, Char.ofNat 98]) "x" "y" =
      Except.ok ⟨[⟨1, String.mk [Char.ofNat 97, squote, Char.ofNat 98], "x"⟩],
        [], 0⟩ ∧
    ((⟨[⟨1, String.mk [Char.ofNat 97, squote, Char.ofNat 98], "x"⟩],
        [], 0⟩ : DB).counters.filter
      (fun c => c.path ==
        String.mk [Char.ofNat 97, squote, squote, Char.ofNat 98])).length
      = 0 := by
  constructor
  · rfl
  · rfl

/-- Claim C5, amended: for every path and pair of names that contain no
single-quote character, registering a counter at a path that is already
registered is a no-op: the second registration returns the store unchanged,
and after it exactly one Counter row exists for that path, carrying the
name given at the first registration. -/
theorem claim_C5 (db : DB) (path name name' : String)
    (hp : squote ∉ path.data) (hn : squote ∉ name.data)
    (hn' : squote ∉ name'.data)
    (hfresh : ∀ c ∈ db.counters, c.path ≠ path) :
    ∃ db1,
      add_counter db path name = Except.ok db1 ∧
      add_counter db1 path name' = Except.ok db1 ∧
      (db1.counters.filter (fun c => c.path == path)).map (fun c => c.name) =
        [name] := by
  have hany : (db.counters.any (fun c => c.path == path)) = false := by
    rw [List.any_eq_false]
    intro c hc
    simpa using hfresh c hc
  have h1 := add_counter_noquote db path name hp hn
  rw [hany] at h1
  simp only [Bool.false_eq_true, if_false] at h1
  refine ⟨_, h1, ?_, ?_⟩
  · have h2 := add_counter_noquote
      { db with counters := db.counters ++
        [{ counter_id := nextCounterId db, path := path, name := name }] }
      path name' hp hn'
    have hany2 : (({ db with counters := db.counters ++
        [{ counter_id := nextCounterId db, path := path, name := name }] } :
          DB).counters.any (fun c => c.path == path)) = true := by
      rw [List.any_eq_true]
      refine ⟨{ counter_id := nextCounterId db, path := path, name := name },
        List.mem_append_right _ (List.mem_singleton.mpr rfl), ?_⟩
      simp
    rw [hany2] at h2
    simpa using h2
  · simp only [List.filter_append]
    have hnil : db.counters.filter (fun c => c.path == path) = [] := by
      rw [List.filter_eq_nil_iff]
      intro c hc
      simpa using hfresh c hc
    rw [hnil]
    simp

/-- Claim C6: report delivery happens exactly when the report list is
non-empty after all counters are processed — an empty report returns
without touching the mail collaborators, a non-empty report makes the run
outcome that of `send_mail` — and a delivered message is the one composed
message, with subject `"Linux healthcheck report"` and a plaintext body of
one line `name: delta` per report entry, in report order. -/
theorem claim_C6 (db : DB) (fs : FS) (credsFile : Option String)
    (smtpOk : Bool) (db1 : DB) (report : List (String × Int))
    (hp : processCounters fs db.counters db [] = Except.ok (db1, report)) :
    (main db fs credsFile smtpOk =
      if report.isEmpty then Except.ok (db1, report, none)
      else (send_mail credsFile smtpOk report).map
        (fun m => (db1, report, some m))) ∧
    (∀ m, send_mail credsFile smtpOk report = Except.ok m →
      m.subject = "Linux healthcheck report" ∧
      m.body = String.intercalate "\n"
        (report.map (fun p => p.1 ++ ": " ++ toString p.2))) := by
  constructor
  · rw [main, hp]
    simp only []
    by_cases hlen : 0 < report.length
    · rw [if_pos hlen]
      have : report.isEmpty = false := by
        cases report with
        | nil => cases hlen
        | cons a l => rfl
      rw [this]
      simp only [Bool.false_eq_true, if_false]
      cases hm : send_mail credsFile smtpOk report with
      | error e => rfl
      | ok m => rfl
    · have : report = [] := by
        cases report with
        | nil => rfl
        | cons a l => exact absurd (by simp) hlen
      subst this
      rw [if_neg hlen]
      rfl
  · intro m hm
    rw [send_mail.eq_def] at hm
    cases credsFile with
    | none => cases hm
    | some content =>
      simp only [] at hm
      cases hd : parseCreds content.data with
      | none => rw [hd] at hm; cases hm
      | some d =>
        rw [hd] at hm
        simp only [] at hm
        cases smtpOk with
        | false => simp at hm
        | true =>
          simp only [if_pos] at hm
          injection hm with hm2
          rw [← hm2]
          exact ⟨rfl, rfl⟩

/-- Claim C7: writing the credentials file (the `json.dump` of
`write_credentials_file`) and reading it back (the `json.load` of
`send_mail`) yields exactly the same five values, for every credentials
tuple; consequently `send_mail` over such a file composes the message with
exactly the stored sender and recipient. -/
theorem claim_C7 (d : Credentials) :
    parseCreds (writeCredentialsContent d).data = some d ∧
    ∀ report, send_mail (some (writeCredentialsContent d)) true report =
      Except.ok (composeMail d report) := by
  have hrt : parseCreds (writeCredentialsContent d).data = some d :=
    parseCreds_encodeCreds d
  refine ⟨hrt, ?_⟩
  intro report
  rw [send_mail.eq_def]
  simp only [hrt]
  simp

/-- Claim C8: `read_counter` returns the integer parsed (in the Python
`int` sense) from the whole content of the path when it exists and parses;
it fails with a read error when the path is missing or unreadable, and with
a parse error when the content is not a valid integer.  It catches neither
error: the error values are returned unchanged to the caller. -/
theorem claim_C8 (fs : FS) (path : String) :
    (fs path = none →
      read_counter fs path = Except.error RunError.sampleReadError) ∧
    (∀ content, fs path = some content → pyInt content = none →
      read_counter fs path = Except.error RunError.sampleParseError) ∧
    (∀ content n, fs path = some content → pyInt content = some n →
      read_counter fs path = Except.ok n) := by
  refine ⟨?_, ?_, ?_⟩
  · intro h
    rw [read_counter, h]
  · intro content h hpi
    rw [read_counter, h]
    simp only []
    rw [hpi]
  · intro content n h hpi
    rw [read_counter, h]
    simp only []
    rw [hpi]

/-- Claim C9: schema initialization is idempotent and total — after any
positive number of calls on a store whose schema objects are not
duplicated, the store holds exactly one counters table, one samples table,
one uniqueness constraint on `path` and one index on the observation
timestamp, iterating it changes nothing beyond the first call, and the
registered data is untouched. -/
theorem claim_C9 (st : Store) (n : Nat) (hn : 1 ≤ n)
    (hnodup : st.objs.Nodup) :
    create_schema^[n] st = create_schema st ∧
    (create_schema^[n] st).objs.count SchemaObj.countersTable = 1 ∧
    (create_schema^[n] st).objs.count SchemaObj.samplesTable = 1 ∧
    (create_schema^[n] st).objs.count SchemaObj.pathUniqueIndex = 1 ∧
    (create_schema^[n] st).objs.count SchemaObj.accessTimeIndex = 1 ∧
    (create_schema^[n] st).db = st.db := by
  have hit := create_schema_iterate st n hn
  obtain ⟨hm1, hm2, hm3, hm4⟩ := create_schema_mem st
  have hnd := create_schema_nodup hnodup
  rw [hit]
  exact ⟨rfl, List.count_eq_one_of_mem hnd hm1,
    List.count_eq_one_of_mem hnd hm3, List.count_eq_one_of_mem hnd hm2,
    List.count_eq_one_of_mem hnd hm4, rfl⟩

/-- Claim C10: registration does not survive single quotes, because the
insert statement is built by string interpolation.  For the path `a`,
quote, `b` the interpolated statement is a SQLite syntax error (a storage
error) on every store; for the path `a`, quote, quote, `b` the registration
succeeds but stores the different path `a`, quote, `b`. -/
theorem claim_C10 :
    squote ∈ (String.mk [Char.ofNat 97, squote, Char.ofNat 98]).data ∧
    (∀ db : DB, add_counter db
        (String.mk [Char.ofNat 97, squote, Char.ofNat 98]) "x" =
      Except.error RunError.storageError) ∧
    add_counter ⟨[], [], 0⟩
        (String.mk [Char.ofNat 97, squote, squote, Char.ofNat 98]) "x" =
      Except.ok ⟨[⟨1, String.mk [Char.ofNat 97, squote, Char.ofNat 98], "x"⟩],
        [], 0⟩ ∧
    String.mk [Char.ofNat 97, squote, Char.ofNat 98] ≠
      String.mk [Char.ofNat 97, squote, squote, Char.ofNat 98] := by
  refine ⟨by decide, ?_, by rfl, by decide⟩
  intro db
  rw [add_counter]
  rw [show parseAddCounterValues (addCounterSQL
    (String.mk [Char.ofNat 97, squote, Char.ofNat 98]) "x") = none from rfl]

/-! ## Witnesses: the claim theorems applied at concrete inputs -/

/-- Witness for claim C1: on a fresh store, sampling 10 against baseline 0
records one sample of 10 and reports a delta of 10. -/
theorem claim_C1_witness :
    (samplesFor wDB1 1).map (fun s => s.count) =
      (samplesFor wDB 1).map (fun s => s.count) ++ [10] ∧
    ("EDAC", (10 : Int)) ∈ [("EDAC", (10 : Int))] :=
  claim_C1 wDB wFS wFile true wDB1 [("EDAC", 10)]
    (some (composeMail wCreds [("EDAC", 10)])) (by decide) (by decide)
    (by decide) wCounter (by decide) 10 (by decide) (by decide)

/-- Witness for claim C2: sampling 7 against baseline 10 records nothing,
keeps the baseline and reports nothing. -/
theorem claim_C2_witness :
    samplesFor wDB1 1 = samplesFor wDB1 1 ∧
    get_counter wDB1 1 = get_counter wDB1 1 ∧
    "EDAC" ∉ ([] : List (String × Int)).map Prod.fst :=
  claim_C2 wDB1 wFS7 none true wDB1 [] none (by decide) (by decide)
    (by decide) wCounter (by decide) 7 (by decide) (by decide) (by decide)

/-- Witness for claim C3: the latest value of the counter with one sample
of 10 is 10. -/
theorem claim_C3_witness : get_counter wDB1 1 = 10 :=
  (claim_C3 wDB1 1).2 wSample (by decide) (by decide)

/-- Witness for claim C4: with the counter file missing, the run fails and
the persistent store is unchanged. -/
theorem claim_C4_witness :
    (∃ e, main wDB1 wFSnone none true = Except.error e) ∧
    mainPersist wDB1 wFSnone none true = wDB1 :=
  claim_C4 wDB1 wFSnone none true
    (Or.inl ⟨wCounter, by decide, RunError.sampleReadError, by decide⟩)

/-- Witness for the amended claim C5 at quote-free inputs. -/
theorem claim_C5_witness :
    ∃ db1,
      add_counter ⟨[], [], 0⟩ "/p" "EDAC" = Except.ok db1 ∧
      add_counter db1 "/p" "X" = Except.ok db1 ∧
      (db1.counters.filter (fun c => c.path == "/p")).map (fun c => c.name) =
        ["EDAC"] :=
  claim_C5 ⟨[], [], 0⟩ "/p" "EDAC" "X" (by decide) (by decide) (by decide)
    (by decide)

/-- Witness for claim C6: a non-empty report makes the run outcome that of
the delivery of the composed message. -/
theorem claim_C6_witness :
    main wDB wFS wFile true =
      (if ([("EDAC", (10 : Int))]).isEmpty then
        Except.ok (wDB1, [("EDAC", (10 : Int))], none)
      else (send_mail wFile true [("EDAC", (10 : Int))]).map
        (fun m => (wDB1, [("EDAC", (10 : Int))], some m))) :=
  (claim_C6 wDB wFS wFile true wDB1 [("EDAC", 10)] (by decide)).1

/-- Witness for claim C8: a missing path is a read error, non-numeric
content is a parse error, and numeric content with surrounding whitespace
parses. -/
theorem claim_C8_witness :
    read_counter wFS8 "/missing" = Except.error RunError.sampleReadError ∧
    read_counter wFS8 "/bad" = Except.error RunError.sampleParseError ∧
    read_counter wFS8 "/good" = Except.ok 42 :=
  ⟨(claim_C8 wFS8 "/missing").1 (by decide),
   (claim_C8 wFS8 "/bad").2.1 "x" (by decide) (by decide),
   (claim_C8 wFS8 "/good").2.2 " 42\n" 42 (by decide) (by decide)⟩

/-- Witness for claim C9: two schema initializations on an empty store
leave one object of each kind and no data. -/
theorem claim_C9_witness :
    create_schema^[2] wStore = create_schema wStore ∧
    (create_schema^[2] wStore).objs.count SchemaObj.countersTable = 1 ∧
    (create_schema^[2] wStore).objs.count SchemaObj.samplesTable = 1 ∧
    (create_schema^[2] wStore).objs.count SchemaObj.pathUniqueIndex = 1 ∧
    (create_schema^[2] wStore).objs.count SchemaObj.accessTimeIndex = 1 ∧
    (create_schema^[2] wStore).db = wStore.db :=
  claim_C9 wStore 2 (by decide) (by decide)

end LinuxHealthcheck

